import Mathlib

/-!
Verification development for the deterministic frame-synthesis and
playback-timeline engine of the animated pixel-noise generator
(source: the PixelNoiseGenerator component).

Modelling conventions, shared by every definition below:

* JavaScript 64-bit floats are modelled as exact rationals.  Every
  claim-relevant computation in the source is exact in float64 as well
  (all random draws are of the form k / 2^32 with k < 2^32, and the
  scheduler works on small decimal quantities), so the idealisation is
  faithful on the inputs the claims speak about.
* The transcendental library functions Math.sin, Math.cos, Math.atan2,
  Math.sqrt and the constant Math.PI are pure deterministic functions of
  their arguments in JavaScript; they are modelled as an explicit
  oracle record passed through the renderer, so every theorem holds for
  every interpretation of them.
* 32-bit integer operations of the source (x | 0, >>> k, ^, |,
  Math.imul) are modelled on Nat with explicit reduction mod 2^32;
  signed and unsigned views agree modulo 2^32 for all the operations
  used, and every unsigned shift of the source is a division by a
  power of two on the uint32 view.
* The packed little-endian RGBA pixel words of the source
  ((255 << 24) | (b << 16) | (g << 8) | r written into a Uint32Array)
  are modelled as Nat values below 2^32; the byte view used by the
  distortion stage is recovered by the byte accessors.
* Uint8ClampedArray stores clamp to the range 0..255 and round
  half-to-even, which is modelled explicitly by u8clamp.
-/

/-- Oracle for the host math library: Math.sin, Math.cos, Math.atan2,
Math.sqrt and Math.PI, treated as arbitrary but fixed pure functions. -/
structure MathOracle where
  sin : ℚ → ℚ
  cos : ℚ → ℚ
  atan2 : ℚ → ℚ → ℚ
  sqrt : ℚ → ℚ
  pi : ℚ

/-- The all-zero math oracle, used only to instantiate universally
quantified theorems at a concrete computable input. -/
def zeroOracle : MathOracle :=
  { sin := fun _ => 0, cos := fun _ => 0, atan2 := fun _ _ => 0,
    sqrt := fun _ => 0, pi := 0 }

/-- 2^32, the modulus of JavaScript 32-bit integer coercions. -/
def uMod : ℕ := 4294967296

/-- JavaScript ToUint32 of an integer value. -/
def toU32 (z : ℤ) : ℕ := (z % (uMod : ℤ)).toNat

/-- JavaScript Math.trunc, the rounding used by the float % operator. -/
def jsTruncQ (q : ℚ) : ℤ := if 0 ≤ q then ⌊q⌋ else ⌈q⌉

/-- JavaScript % on numbers: a - b * trunc(a / b). -/
def jsModQ (a b : ℚ) : ℚ := a - b * (jsTruncQ (a / b) : ℚ)

/-- Round half to even on rationals, as specified for Uint8ClampedArray. -/
def rte (q : ℚ) : ℤ :=
  let f := ⌊q⌋
  if q - (f : ℚ) < 1/2 then f
  else if (1:ℚ)/2 < q - (f : ℚ) then f + 1
  else if f % 2 = 0 then f else f + 1

/-- Uint8ClampedArray store conversion: clamp to 0..255, round half to even. -/
def u8clamp (q : ℚ) : ℕ :=
  if q ≤ 0 then 0 else if 255 ≤ q then 255 else (rte q).toNat

/-- clamp01 from the source: Math.min(1, Math.max(0, n)). -/
def clamp01 (n : ℚ) : ℚ := min 1 (max 0 n)

/-- lerp from the source: a + (b - a) * t. -/
def lerp (a b t : ℚ) : ℚ := a + (b - a) * t

/-- One step of the mulberry32 generator from the source: returns the new
32-bit state together with the raw 32-bit output word; the float the
closure returns is the output word divided by 2^32. -/
def mulberry32Next (a : ℕ) : ℕ × ℕ :=
  let a' := (a + 0x6d2b79f5) % uMod
  let t1 := ((Nat.xor a' (a' / 32768)) * (Nat.lor 1 a')) % uMod
  let t2 := Nat.xor ((t1 + ((Nat.xor t1 (t1 / 128)) * (Nat.lor 61 t1)) % uMod) % uMod) t1
  (a', Nat.xor t2 (t2 / 16384))

/-- The float in [0, 1) produced by one mulberry32 draw from state a. -/
def randQ (a : ℕ) : ℚ := ((mulberry32Next a).2 : ℚ) / 4294967296

/-- Math.floor(rng() * m) for a natural bound m, computed exactly:
floor((k / 2^32) * m) = k * m / 2^32 in integer division.  This is the
randInt helper of the source. -/
def randIntDraw (a m : ℕ) : ℕ × ℕ := ((mulberry32Next a).1, (mulberry32Next a).2 * m / uMod)

/-- mixSeed from the source: the xor-shift/multiply avalanche deriving the
per-frame seed from the base seed and the frame index. -/
def mixSeed (base frame : ℕ) : ℕ :=
  let x0 := Nat.xor (base % uMod) ((frame * 0x9e3779b1) % uMod)
  let x1 := Nat.xor x0 (x0 / 65536)
  let x2 := (x1 * 0x7feb352d) % uMod
  let x3 := Nat.xor x2 (x2 / 32768)
  let x4 := (x3 * 0x846ca68b) % uMod
  Nat.xor x4 (x4 / 65536)

/-- initSeed from the source.  The first argument is the caller-supplied
optional seed, the second is the 32-bit word the cryptographic source
would deliver.  A supplied seed is adopted exactly when it is strictly
positive; otherwise the crypto word is used, replaced by 1 when zero
(buf[0] || 1). -/
def initSeed (provided : Option ℤ) (cryptoWord : ℕ) : ℤ :=
  match provided with
  | some p => if 0 < p then p else (if cryptoWord = 0 then 1 else (cryptoWord : ℤ))
  | none => if cryptoWord = 0 then 1 else (cryptoWord : ℤ)

/-- The rolling timeline window: the bookkeeping pair behind
windowStartFrameRef and windowSizeRef. -/
structure Window where
  start : ℕ
  size : ℕ
deriving DecidableEq

/-- maxWindowFrames from the source. -/
def maxWindowFrames : ℕ := 600

/-- ensureWindowContainsFrame from the source, as a pure state update.
Natural subtraction realises the Math.max(0, newEnd - maxWindowFrames)
of the source exactly. -/
def ensureWindowContainsFrame (w : Window) (frameIndex : ℕ) : Window :=
  let endW := w.start + w.size
  if w.size = 0 then ⟨frameIndex, 1⟩
  else if frameIndex < w.start then w
  else
    let w' : Window :=
      if frameIndex ≥ endW then
        let newEnd := frameIndex + 1
        let newStart := newEnd - maxWindowFrames
        ⟨newStart, newEnd - newStart⟩
      else w
    if w'.size > maxWindowFrames then
      ⟨w'.start + (w'.size - maxWindowFrames), maxWindowFrames⟩
    else w'

/-- The absolute frame index computed by seekToFrame from the source:
Math.max(start, Math.min(start + index, Math.max(start, end - 1))). -/
def seekResolve (w : Window) (index : ℤ) : ℤ :=
  let s : ℤ := w.start
  let e : ℤ := w.start + w.size
  max s (min (s + index) (max s (e - 1)))

/-- The absolute frame index computed by stepBackward from the source:
Math.max(windowStart, frame - 1).  Natural subtraction matches the
source because Math.max(start, -1) = start for the non-negative start. -/
def stepBackResolve (w : Window) (frame : ℕ) : ℕ :=
  max w.start (frame - 1)

/-- ColorMode enum from the source. -/
inductive ColorMode where
  | monochrome | rgb | grayscale | neon | warm | cool | rainbow
  | retro | matrix | fire | ocean
deriving DecidableEq

/-- Pattern enum from the source. -/
inductive Pattern where
  | pixels | horizontalLines | verticalLines | staticP | glitch
  | checkerboard | waves | diagonal | blocks | scanlines | plasma
  | cellular | fbm | domainWarp | ridged | halftone | hatching
  | moire | gradientBands | metaballs
deriving DecidableEq

/-- Distortion enum from the source. -/
inductive Distortion where
  | none | chromaticAberration | scanlines | crt | noiseOverlay | vhs
  | pixelate | dither | fisheye | glow | rgbSplit | kaleidoscope
  | ripple | radialFade | cyberpunk | vortex | matrix | noise | jitter
  | glitch | wave | scanlineRoll | crtDisplay | vhsTape | psychedelic
  | posterize | barrel | pinch | blur | sharpen | emboss | sepia | invert
deriving DecidableEq

/-- The fixed 16-entry retro palette of the source (PICO-8 colors),
shared by getColorForMode and colorFromValue. -/
def retroPalette : List (ℕ × ℕ × ℕ) :=
  [(0, 0, 0), (29, 43, 83), (126, 37, 83), (0, 135, 81),
   (171, 82, 54), (95, 87, 79), (194, 195, 199), (255, 241, 232),
   (255, 0, 77), (255, 163, 0), (255, 236, 39), (0, 228, 54),
   (41, 173, 255), (131, 118, 156), (255, 119, 168), (255, 204, 170)]

/-- getColorForMode from the source: the stochastic color mapper.  It
consumes mulberry32 draws from state a in source order and returns the
RGB triple together with the generator state after the draws.  Each
Math.floor(rng() * m + c) of the source is computed exactly as
k * m / 2^32 + c on the raw 32-bit draw k, and each comparison of a
draw with a decimal literal is decided on exact rationals (no draw of
the form k / 2^32 separates the float64 literal from the exact decimal
for the literals 0.33, 0.66 used here). -/
def getColorForMode (mode : ColorMode) (a : ℕ) : (ℕ × ℕ × ℕ) × ℕ :=
  match mode with
  | ColorMode.monochrome =>
    let (a1, k) := mulberry32Next a
    let gray := k * 256 / uMod
    ((gray, gray, gray), a1)
  | ColorMode.rgb =>
    let (a1, k1) := mulberry32Next a
    let (a2, k2) := mulberry32Next a1
    let (a3, k3) := mulberry32Next a2
    ((k1 * 256 / uMod, k2 * 256 / uMod, k3 * 256 / uMod), a3)
  | ColorMode.neon =>
    let (a1, kc) := mulberry32Next a
    let choice : ℚ := (kc : ℚ) / 4294967296
    if choice < 0.33 then
      let (a2, k1) := mulberry32Next a1
      let (a3, k2) := mulberry32Next a2
      ((k1 * 100 / uMod + 155, 0, k2 * 100 / uMod + 155), a3)
    else if choice < 0.66 then
      let (a2, k1) := mulberry32Next a1
      let (a3, k2) := mulberry32Next a2
      ((0, k1 * 100 / uMod + 155, k2 * 100 / uMod + 155), a3)
    else
      let (a2, k1) := mulberry32Next a1
      let (a3, k2) := mulberry32Next a2
      ((k1 * 100 / uMod + 155, k2 * 100 / uMod + 155, 0), a3)
  | ColorMode.warm =>
    let (a1, k1) := mulberry32Next a
    let (a2, k2) := mulberry32Next a1
    let (a3, k3) := mulberry32Next a2
    ((k1 * 100 / uMod + 155, k2 * 100 / uMod + 55, k3 * 50 / uMod), a3)
  | ColorMode.cool =>
    let (a1, k1) := mulberry32Next a
    let (a2, k2) := mulberry32Next a1
    let (a3, k3) := mulberry32Next a2
    ((k1 * 50 / uMod, k2 * 100 / uMod + 100, k3 * 100 / uMod + 155), a3)
  | ColorMode.rainbow =>
    let (a1, kh) := mulberry32Next a
    let (a2, kv) := mulberry32Next a1
    let hue := kh * 6 / uMod
    let val := kv * 256 / uMod
    let c :=
      if hue = 0 then (255, val, 0)
      else if hue = 1 then (val, 255, 0)
      else if hue = 2 then (0, 255, val)
      else if hue = 3 then (0, val, 255)
      else if hue = 4 then (val, 0, 255)
      else (255, 0, val)
    (c, a2)
  | ColorMode.retro =>
    let (a1, k) := mulberry32Next a
    (retroPalette.getD (k * 16 / uMod) (0, 0, 0), a1)
  | _ =>
    let (a1, k) := mulberry32Next a
    let gray := k * 256 / uMod
    ((gray, gray, gray), a1)

/-- colorFromValue from the source: the field color mapper, turning a
scalar into an RGB triple of integers (as produced by Math.floor; the
channels are integers and may in principle leave 0..255 only through
the oracle-valued sine ramps, which the packed write then wraps exactly
like the source's bit operations would). -/
def colorFromValue (o : MathOracle) (mode : ColorMode) (v x y t : ℚ) : ℤ × ℤ × ℤ :=
  let vv := clamp01 v
  if mode = ColorMode.monochrome ∨ mode = ColorMode.grayscale then
    let g := ⌊vv * 255⌋
    (g, g, g)
  else if mode = ColorMode.warm then
    (⌊lerp 140 255 vv⌋, ⌊lerp 40 190 vv⌋, ⌊lerp 10 80 vv⌋)
  else if mode = ColorMode.cool then
    (⌊lerp 0 90 vv⌋, ⌊lerp 90 220 vv⌋, ⌊lerp 130 255 vv⌋)
  else if mode = ColorMode.ocean then
    (⌊lerp 0 40 vv⌋, ⌊lerp 60 200 vv⌋, ⌊lerp 120 255 vv⌋)
  else if mode = ColorMode.fire then
    (⌊lerp 0 255 vv⌋, ⌊lerp 0 255 (clamp01 ((vv - 0.3) / 0.7))⌋,
     ⌊lerp 0 255 (clamp01 ((vv - 0.75) / 0.25))⌋)
  else if mode = ColorMode.matrix then
    let g := ⌊lerp 0 255 vv⌋
    (0, g, ⌊(g : ℚ) * 0.2⌋)
  else if mode = ColorMode.retro then
    let idx := (⌊vv * 15⌋).toNat
    let c := retroPalette.getD idx (0, 0, 0)
    ((c.1 : ℤ), (c.2.1 : ℤ), (c.2.2 : ℤ))
  else if mode = ColorMode.neon then
    (⌊lerp 50 255 (0.5 + 0.5 * o.sin (vv * o.pi * 2 + 0.0))⌋,
     ⌊lerp 0 255 (0.5 + 0.5 * o.sin (vv * o.pi * 2 + 2.2))⌋,
     ⌊lerp 80 255 (0.5 + 0.5 * o.sin (vv * o.pi * 2 + 4.4))⌋)
  else
    let r := ⌊255 * (0.5 + 0.5 * o.sin (vv * o.pi * 2 + 0.0))⌋
    let g := ⌊255 * (0.5 + 0.5 * o.sin (vv * o.pi * 2 + 2.1))⌋
    let b := ⌊255 * (0.5 + 0.5 * o.sin (vv * o.pi * 2 + 4.2))⌋
    let wobble := 0.03 * o.sin (x * 0.01 + y * 0.01 + t)
    (⌊255 * clamp01 ((r : ℚ) / 255 + wobble)⌋,
     ⌊255 * clamp01 ((g : ℚ) / 255 + wobble)⌋,
     ⌊255 * clamp01 ((b : ℚ) / 255 + wobble)⌋)

/-- hash2 from the source (the top-level one with constant 43758.5453123). -/
def hash2 (o : MathOracle) (x y : ℚ) : ℚ :=
  let n := o.sin (x * 127.1 + y * 311.7) * 43758.5453123
  n - (⌊n⌋ : ℚ)

/-- hash2 as locally redefined inside the fbm and ridged branches of the
source (constant 43758.545312, one digit shorter than the top-level one). -/
def hash2Inner (o : MathOracle) (x y : ℚ) : ℚ :=
  let n := o.sin (x * 127.1 + y * 311.7) * 43758.545312
  n - (⌊n⌋ : ℚ)

/-- Iteration count of a JavaScript loop for (i = 0; i < q; i++) whose
bound q may be fractional or non-positive. -/
def jsLoopCount (q : ℚ) : ℕ := (max 0 ⌈q⌉).toNat

/-- Math.ceil(a / b) on naturals, the block-grid size computation. -/
def ceilDivN (a b : ℕ) : ℕ := (a + b - 1) / b

/-- Array write that is silently ignored out of range; all writes of the
source are in range, so this is only defensive bookkeeping. -/
def aset (a : Array ℕ) (i : ℕ) (v : ℕ) : Array ℕ :=
  if h : i < a.size then a.set ⟨i, h⟩ v else a

/-- Fill the rectangle of pixel words with rows y0 <= py < y1 and columns
x0 <= px < x1 of a row-major buffer of width w, as the nested
block-fill loops of the source do. -/
def fillRect (buf : Array ℕ) (w x0 x1 y0 y1 v : ℕ) : Array ℕ :=
  (List.range' y0 (y1 - y0)).foldl
    (fun b py =>
      (List.range' x0 (x1 - x0)).foldl (fun b2 px => aset b2 (py * w + px) v) b)
    buf

/-- The packed pixel word (255 << 24) | (b << 16) | (g << 8) | r of the
source, on the uint32 view, with ToInt32 wrapping of each channel. -/
def pack (r g b : ℤ) : ℕ :=
  Nat.lor (Nat.lor (Nat.lor 0xFF000000 ((toU32 b * 65536) % uMod)) ((toU32 g * 256) % uMod))
    (toU32 r)

/-- Packing of a natural RGB triple as produced by getColorForMode. -/
def packN (c : ℕ × ℕ × ℕ) : ℕ := pack (c.1 : ℤ) (c.2.1 : ℤ) (c.2.2 : ℤ)

/-- Packing of an integer RGB triple as produced by colorFromValue. -/
def packZ (c : ℤ × ℤ × ℤ) : ℕ := pack c.1 c.2.1 c.2.2

/-- R byte of a packed pixel word (little-endian byte 0). -/
def rByte (v : ℕ) : ℕ := v % 256

/-- G byte of a packed pixel word. -/
def gByte (v : ℕ) : ℕ := v / 256 % 256

/-- B byte of a packed pixel word. -/
def bByte (v : ℕ) : ℕ := v / 65536 % 256

/-- A byte of a packed pixel word. -/
def aByte (v : ℕ) : ℕ := v / 16777216 % 256

/-- Rebuild a packed word from byte channels, keeping the alpha of the
original word; channel arguments are assumed below 256 (they are bytes
or u8clamp results everywhere below). -/
def setRGBKeepA (orig r g b : ℕ) : ℕ :=
  aByte orig * 16777216 + b * 65536 + g * 256 + r

/-- The strategy-specific named numeric knobs of the settings
(patternParams); a missing field is an absent key of the record. -/
structure PatternParams where
  octaves : Option ℚ := Option.none
  lacunarity : Option ℚ := Option.none
  gain : Option ℚ := Option.none
  scale : Option ℚ := Option.none
  complexity : Option ℚ := Option.none
  sharpness : Option ℚ := Option.none
  dotSize : Option ℚ := Option.none
  angle : Option ℚ := Option.none
  density : Option ℚ := Option.none
  frequency : Option ℚ := Option.none
  rotation : Option ℚ := Option.none
  bandCount : Option ℚ := Option.none
  speed : Option ℚ := Option.none
  ballCount : Option ℚ := Option.none
  radius : Option ℚ := Option.none
deriving DecidableEq

/-- The pixels branch of renderFrame (also the fallback branch for an
unknown pattern tag, whose body is identical in the source): one
stochastic color draw per block, row-major block scan. -/
def patternPixels (cm : ColorMode) (ps w h : ℕ) (buf : Array ℕ) (rng : ℕ) : Array ℕ × ℕ :=
  let cols := ceilDivN w ps
  let rows := ceilDivN h ps
  (List.range rows).foldl
    (fun st y =>
      (List.range cols).foldl
        (fun st2 x =>
          let (c, rng') := getColorForMode cm st2.2
          (fillRect st2.1 w (x * ps) (min (x * ps + ps) w) (y * ps) (min (y * ps + ps) h)
            (packN c), rng'))
        st)
    (buf, rng)

/-- The horizontal-lines branch: one draw per block row, each filling
full-width rows. -/
def patternHorizontalLines (cm : ColorMode) (ps w h : ℕ) (buf : Array ℕ) (rng : ℕ) :
    Array ℕ × ℕ :=
  let rows := ceilDivN h ps
  (List.range rows).foldl
    (fun st y =>
      let (c, rng') := getColorForMode cm st.2
      (fillRect st.1 w 0 w (y * ps) (min (y * ps + ps) h) (packN c), rng'))
    (buf, rng)

/-- The vertical-lines branch: one draw per block column, each filling a
full-height column strip. -/
def patternVerticalLines (cm : ColorMode) (ps w h : ℕ) (buf : Array ℕ) (rng : ℕ) :
    Array ℕ × ℕ :=
  let cols := ceilDivN w ps
  (List.range cols).foldl
    (fun st x =>
      let (c, rng') := getColorForMode cm st.2
      (fillRect st.1 w (x * ps) (min (x * ps + ps) w) 0 h (packN c), rng'))
    (buf, rng)

/-- The static branch: the pixels logic at quarter block size. -/
def patternStatic (cm : ColorMode) (ps w h : ℕ) (buf : Array ℕ) (rng : ℕ) : Array ℕ × ℕ :=
  let sps := max 1 (ps / 4)
  patternPixels cm sps w h buf rng

/-- The glitch branch: black background, then a drawn number of colored
strips, each consuming position, height, offset and color draws in
source order. -/
def patternGlitch (cm : ColorMode) (ps w h : ℕ) (buf : Array ℕ) (rng : ℕ) : Array ℕ × ℕ :=
  let buf0 := fillRect buf w 0 w 0 h 0xFF000000
  let (rng1, ns) := randIntDraw rng 10
  let numStrips := ns + 5
  (List.range numStrips).foldl
    (fun st _ =>
      let (rng2, stripY) := randIntDraw st.2 h
      let (rng3, hr) := randIntDraw rng2 (ps * 3)
      let stripH := min (h - stripY) (hr + ps)
      let offset : ℤ := ⌊(randQ rng3 - 0.5) * (ps : ℚ) * 2⌋
      let rng4 := (mulberry32Next rng3).1
      let (c, rng5) := getColorForMode cm rng4
      let startX : ℕ := (max 0 offset).toNat
      let endX : ℤ := min (w : ℤ) ((w : ℤ) + offset)
      if (startX : ℤ) < endX then
        (fillRect st.1 w startX endX.toNat stripY (stripY + stripH) (packN c), rng5)
      else (st.1, rng5))
    (buf0, rng1)

/-- The checkerboard branch: two colors derived from the frame time via
colorFromValue, assigned per block by the parity of x + y + phase.  The
per-frame generator is not consulted by this branch. -/
def patternCheckerboard (o : MathOracle) (cm : ColorMode) (ps w h : ℕ) (t : ℚ)
    (buf : Array ℕ) : Array ℕ :=
  let motion : ℚ := 2.6
  let phase := (⌊t * motion⌋).toNat % 2
  let c1 := packZ (colorFromValue o cm (0.25 + 0.15 * o.sin (t * (motion * 0.3))) 0 0 t)
  let c2 := packZ (colorFromValue o cm (0.85 + 0.1 * o.cos (t * (motion * 0.25))) 0 0 t)
  let cols := ceilDivN w ps
  let rows := ceilDivN h ps
  (List.range rows).foldl
    (fun b y =>
      (List.range cols).foldl
        (fun b2 x =>
          let colorVal := if (x + y + phase) % 2 = 0 then c1 else c2
          fillRect b2 w (x * ps) (min (x * ps + ps) w) (y * ps) (min (y * ps + ps) h) colorVal)
        b)
    buf

/-- Generic row-major block-scan fill used by the field patterns: every
block (x, y) gets a single color word computed from its coordinates. -/
def blockFill (ps w h : ℕ) (color : ℕ → ℕ → ℕ) (buf : Array ℕ) : Array ℕ :=
  let cols := ceilDivN w ps
  let rows := ceilDivN h ps
  (List.range rows).foldl
    (fun b y =>
      (List.range cols).foldl
        (fun b2 x =>
          fillRect b2 w (x * ps) (min (x * ps + ps) w) (y * ps) (min (y * ps + ps) h)
            (color x y))
        b)
    buf

/-- The diagonal branch. -/
def patternDiagonal (o : MathOracle) (cm : ColorMode) (ps w h : ℕ) (t : ℚ)
    (buf : Array ℕ) : Array ℕ :=
  let motion : ℚ := 1.6
  blockFill ps w h
    (fun x y =>
      let v := 0.5 + 0.5 * o.sin (((x : ℚ) + (y : ℚ)) * 0.6 + t * motion)
      packZ (colorFromValue o cm v ((x * ps : ℕ) : ℚ) ((y * ps : ℕ) : ℚ) t))
    buf

/-- The waves branch. -/
def patternWaves (o : MathOracle) (cm : ColorMode) (ps w h : ℕ) (t : ℚ)
    (buf : Array ℕ) : Array ℕ :=
  let freq : ℚ := 0.06 * max 1 (6 / (ps : ℚ))
  let motion : ℚ := 1.6
  blockFill ps w h
    (fun x y =>
      let px : ℚ := (x * ps : ℕ)
      let py : ℚ := (y * ps : ℕ)
      let v := 0.5 + 0.5 * o.sin (px * freq + t * motion) * o.cos (py * freq + t * (motion * 0.75))
      packZ (colorFromValue o cm v px py t))
    buf

/-- The blocks branch: large stable blocks colored from the top-level
hash2 driven by the quantised time. -/
def patternBlocks (o : MathOracle) (cm : ColorMode) (ps w h : ℕ) (t : ℚ)
    (buf : Array ℕ) : Array ℕ :=
  let block := max 1 (ps * 4)
  let motion : ℚ := 1.2
  blockFill block w h
    (fun bx by2 =>
      let v := hash2 o ((bx : ℚ) + (⌊t * motion⌋ : ℚ)) ((by2 : ℚ) + (⌊t * motion⌋ : ℚ))
      packZ (colorFromValue o cm v ((bx * block : ℕ) : ℚ) ((by2 * block : ℕ) : ℚ) t))
    buf

/-- The scanlines pattern branch: alternating full-width bands with a
drifting phase and a sinusoidal wobble. -/
def patternScanlines (o : MathOracle) (cm : ColorMode) (ps w h : ℕ) (t : ℚ)
    (buf : Array ℕ) : Array ℕ :=
  let band := max 1 (ps / 2)
  let motion : ℚ := 2.4
  let phase := (⌊t * motion⌋).toNat % 2
  (List.range h).foldl
    (fun b y =>
      let line := y / band
      let v : ℚ := if (line + phase) % 2 = 0 then 0.85 else 0.15
      let wobble := 0.08 * o.sin (t * (motion * 0.9) + (y : ℚ) * 0.02)
      let vv := clamp01 (v + wobble)
      let colorVal := packZ (colorFromValue o cm vv 0 (y : ℚ) t)
      fillRect b w 0 w y (y + 1) colorVal)
    buf

/-- The plasma branch. -/
def patternPlasma (o : MathOracle) (cm : ColorMode) (ps w h : ℕ) (t : ℚ)
    (buf : Array ℕ) : Array ℕ :=
  let s : ℚ := 0.015 * max 1 (10 / (ps : ℚ))
  blockFill ps w h
    (fun x y =>
      let px : ℚ := (x * ps : ℕ)
      let py : ℚ := (y * ps : ℕ)
      let v := 0.5 + 0.25 * o.sin (px * s + t * 2.2) + 0.25 * o.sin (py * s + t * 1.8)
        + 0.15 * o.sin ((px + py) * s * 0.7 + t * 2.6)
      packZ (colorFromValue o cm v px py t))
    buf

/-- The cellular branch: distance and edge blend against twelve moving
seed points on golden-angle orbits. -/
def patternCellular (o : MathOracle) (cm : ColorMode) (ps w h : ℕ) (t : ℚ)
    (buf : Array ℕ) : Array ℕ :=
  let pts := 12
  let srcPts : List (ℚ × ℚ) :=
    (List.range pts).map (fun i =>
      let a : ℚ := (i : ℚ) * 2.399963229728653
      ((0.5 + 0.45 * o.sin (a + t * (0.6 + (i : ℚ) * 0.02))) * (w : ℚ),
       (0.5 + 0.45 * o.cos (a + t * (0.7 + (i : ℚ) * 0.02))) * (h : ℚ)))
  let invMax := 1 / o.sqrt ((w : ℚ) * w + (h : ℚ) * h)
  blockFill ps w h
    (fun x y =>
      let px : ℚ := (x * ps : ℕ)
      let py : ℚ := (y * ps : ℕ)
      let dd := srcPts.foldl
        (fun (p : ℚ × ℚ) pt =>
          let dx := px - pt.1
          let dy := py - pt.2
          let d := o.sqrt (dx * dx + dy * dy)
          if d < p.1 then (d, p.1) else if d < p.2 then (p.1, d) else p)
        (1000000000, 1000000000)
      let edge := clamp01 ((dd.2 - dd.1) * invMax * 6)
      let base := 1 - clamp01 (dd.1 * invMax * 2.5)
      let v := clamp01 (0.15 + 0.85 * (0.65 * base + 0.35 * edge))
      packZ (colorFromValue o cm v px py t))
    buf

/-- The fBm branch: octave sum with per-layer gain and lacunarity,
normalised by the octave knob, over the locally redefined hash noise. -/
def patternFbm (o : MathOracle) (cm : ColorMode) (ps w h : ℕ) (t : ℚ) (pp : PatternParams)
    (buf : Array ℕ) : Array ℕ :=
  let octaves := pp.octaves.getD 4
  let lacunarity := pp.lacunarity.getD 2
  let gain := pp.gain.getD 0.5
  let noise : ℚ → ℚ → ℚ := fun x y => hash2Inner o ((⌊x⌋ : ℚ)) ((⌊y⌋ : ℚ))
  let fbmF : ℚ → ℚ → ℚ := fun x y =>
    let r := (List.range (jsLoopCount octaves)).foldl
      (fun (st : ℚ × ℚ × ℚ) _ =>
        let (amp, freq, sum) := st
        (amp * gain, freq * lacunarity, sum + amp * noise (x * freq) (y * freq)))
      (1, 1, 0)
    r.2.2 / octaves
  let scale : ℚ := 0.008 * (10 / (ps : ℚ))
  (List.range (ceilDivN h ps)).foldl
    (fun b iy =>
      let py := iy * ps
      (List.range (ceilDivN w ps)).foldl
        (fun b2 ix =>
          let px := ix * ps
          let v := 0.5 + 0.5 * fbmF ((px : ℚ) * scale + t * 0.5) ((py : ℚ) * scale + t * 0.5)
          let colorVal := packZ (colorFromValue o cm v (px : ℚ) (py : ℚ) t)
          fillRect b2 w px (min (px + ps) w) py (min (py + ps) h) colorVal)
        b)
    buf

/-- The domain-warp branch: iterated coordinate warping, the warped x
feeding the warp of y within each iteration as in the source. -/
def patternDomainWarp (o : MathOracle) (cm : ColorMode) (ps w h : ℕ) (t : ℚ)
    (pp : PatternParams) (buf : Array ℕ) : Array ℕ :=
  let scale := pp.scale.getD 0.5
  let complexity := pp.complexity.getD 3
  blockFill ps w h
    (fun x y =>
      let wxy := (List.range (jsLoopCount complexity)).foldl
        (fun (st : ℚ × ℚ) i =>
          let offset := (o.sin (t * 0.5 + (i : ℚ) * 1.5) * 20 * ((i : ℚ) + 1)) / complexity
          let wx := st.1 + o.sin (st.2 * scale + t * (0.3 + (i : ℚ) * 0.2)) * offset * 0.05
          let wy := st.2 + o.cos (wx * scale + t * (0.25 + (i : ℚ) * 0.15)) * offset * 0.05
          (wx, wy))
        (((x * ps : ℕ) : ℚ), ((y * ps : ℕ) : ℚ))
      let v := 0.5 + 0.5 * o.sin (wxy.1 * 0.02 + t * 0.4) * o.cos (wxy.2 * 0.02 + t * 0.35)
      packZ (colorFromValue o cm v ((x * ps : ℕ) : ℚ) ((y * ps : ℕ) : ℚ) t))
    buf

/-- The ridged branch. -/
def patternRidged (o : MathOracle) (cm : ColorMode) (ps w h : ℕ) (t : ℚ)
    (pp : PatternParams) (buf : Array ℕ) : Array ℕ :=
  let pscale := pp.scale.getD 0.8
  let sharpness := pp.sharpness.getD 0.5
  let noise : ℚ → ℚ → ℚ := fun x y => hash2Inner o ((⌊x⌋ : ℚ)) ((⌊y⌋ : ℚ))
  blockFill ps w h
    (fun x y =>
      let px : ℚ := (x * ps : ℕ)
      let py : ℚ := (y * ps : ℕ)
      let val := noise (px * pscale * 0.01) (py * pscale * 0.01)
      let nx := noise ((px + 1) * pscale * 0.01) (py * pscale * 0.01)
      let ny := noise (px * pscale * 0.01) ((py + 1) * pscale * 0.01)
      let dx := nx - val
      let dy := ny - val
      let ridge := 1 - |dx + dy|
      let val2 := val + (ridge - val) * sharpness
      let v := 0.5 + 0.5 * val2
      packZ (colorFromValue o cm v px py t))
    buf

/-- The halftone branch: per block, a dot-size neighbourhood is painted
cell-by-cell, choosing the block color or black by the parity of the
rotated-and-realigned x offset. -/
def patternHalftone (o : MathOracle) (cm : ColorMode) (ps w h : ℕ) (t : ℚ)
    (pp : PatternParams) (buf : Array ℕ) : Array ℕ :=
  let dotSize := pp.dotSize.getD 6
  let angleDeg := pp.angle.getD 45
  let angleRad := angleDeg * o.pi / 180
  let cols := ceilDivN w ps
  let rows := ceilDivN h ps
  (List.range rows).foldl
    (fun b y =>
      (List.range cols).foldl
        (fun b2 x =>
          let px := x * ps
          let py := y * ps
          let v := 0.5 + 0.5 * o.sin ((px : ℚ) * 0.1 + (py : ℚ) * 0.1 + t * 0.5)
          let colorVal := packZ (colorFromValue o cm v (px : ℚ) (py : ℚ) t)
          let startY : ℕ := (max 0 ((py : ℤ) - ⌊dotSize / 2⌋)).toNat
          let startX : ℕ := (max 0 ((px : ℤ) - ⌊dotSize / 2⌋)).toNat
          let endY := min (h : ℚ) ((startY : ℚ) + dotSize)
          let endX := min (w : ℚ) ((startX : ℚ) + dotSize)
          (List.range (jsLoopCount (endY - (startY : ℚ)))).foldl
            (fun b3 jy =>
              let hy := startY + jy
              (List.range (jsLoopCount (endX - (startX : ℚ)))).foldl
                (fun b4 jx =>
                  let hx := startX + jx
                  let dx : ℚ := (hx : ℚ) - (px : ℚ)
                  let dy : ℚ := (hy : ℚ) - (py : ℚ)
                  let rotatedDx := dx * o.cos angleRad - dy * o.sin angleRad
                  let rotatedDy := dx * o.sin angleRad + dy * o.cos angleRad
                  let alignedX := rotatedDx * o.cos angleRad + rotatedDy * o.sin angleRad
                  let isDot := Int.tmod ⌊alignedX / dotSize⌋ 2 = 0
                  aset b4 (hy * w + hx) (if isDot then colorVal else 0xFF000000))
                b3)
            b2)
        b)
    buf

/-- The hatching branch: per block, each cell is the block color when it
lies on a rotated line of the configured density, black otherwise. -/
def patternHatching (o : MathOracle) (cm : ColorMode) (ps w h : ℕ) (t : ℚ)
    (pp : PatternParams) (buf : Array ℕ) : Array ℕ :=
  let density := pp.density.getD 3
  let angleDeg := pp.angle.getD 45
  let angleRad := angleDeg * o.pi / 180
  let cols := ceilDivN w ps
  let rows := ceilDivN h ps
  (List.range rows).foldl
    (fun b y =>
      (List.range cols).foldl
        (fun b2 x =>
          let px := x * ps
          let py := y * ps
          let v := 0.5 + 0.5 * o.sin ((px : ℚ) * 0.05 + (py : ℚ) * 0.05 + t * 0.3)
          let colorVal := packZ (colorFromValue o cm v (px : ℚ) (py : ℚ) t)
          let limitY := min (py + ps) h
          let limitX := min (px + ps) w
          let step := (ps : ℚ) / density
          (List.range' py (limitY - py)).foldl
            (fun b3 (hy : ℕ) =>
              (List.range' px (limitX - px)).foldl
                (fun b4 (hx : ℕ) =>
                  let dx : ℚ := (hx : ℚ) - (px : ℚ)
                  let dy : ℚ := (hy : ℚ) - (py : ℚ)
                  let rotatedX := dx * o.cos angleRad - dy * o.sin angleRad
                  let onLine := |rotatedX| < step * 0.5
                  aset b4 (hy * w + hx) (if onLine then colorVal else 0xFF000000))
                b3)
            b2)
        b)
    buf

/-- The moire branch. -/
def patternMoire (o : MathOracle) (cm : ColorMode) (ps w h : ℕ) (t : ℚ)
    (pp : PatternParams) (buf : Array ℕ) : Array ℕ :=
  let freq := pp.frequency.getD 0.5
  let rotation := pp.rotation.getD 30
  let rotRad := rotation * o.pi / 180
  blockFill ps w h
    (fun x y =>
      let px : ℚ := (x * ps : ℕ)
      let py : ℚ := (y * ps : ℕ)
      let v1 := 0.5 + 0.5 * o.sin (px * freq * 0.02 + py * freq * 0.02)
      let v2 := 0.5 + 0.5 * o.cos (px * freq * 0.02 - py * freq * 0.02)
      let rotatedV1 := v1 * o.cos rotRad - v2 * o.sin rotRad
      let rotatedV2 := v1 * o.sin rotRad + v2 * o.cos rotRad
      let v := 0.5 + 0.5 * (rotatedV1 + rotatedV2)
      packZ (colorFromValue o cm v px py t))
    buf

/-- The gradient-bands branch; the band index uses the JavaScript float
remainder against the (possibly fractional) band count. -/
def patternGradientBands (o : MathOracle) (cm : ColorMode) (ps w h : ℕ) (t : ℚ)
    (pp : PatternParams) (buf : Array ℕ) : Array ℕ :=
  let bandCount := pp.bandCount.getD 5
  let speedB := pp.speed.getD 0.5
  blockFill ps w h
    (fun x y =>
      let px : ℚ := (x * ps : ℕ)
      let py : ℚ := (y * ps : ℕ)
      let bandIndex :=
        jsModQ ((⌊((px + py) / ((w : ℚ) + (h : ℚ)) + t * speedB) * bandCount⌋ : ℚ)) bandCount
      let v := bandIndex / bandCount
      packZ (colorFromValue o cm v px py t))
    buf

/-- The metaballs branch: per output pixel, the minimum distance to the
orbiting centers mapped through max(0, 1 - dist / radius).  The empty
orbit list stands for the Infinity minimum of the source, which also
yields value 0. -/
def patternMetaballs (o : MathOracle) (cm : ColorMode) (_ps w h : ℕ) (t : ℚ)
    (pp : PatternParams) (buf : Array ℕ) : Array ℕ :=
  let ballCount := pp.ballCount.getD 4
  let radius := pp.radius.getD 60
  let positions : List (ℚ × ℚ) :=
    (List.range (jsLoopCount ballCount)).map (fun i =>
      let angle := ((i : ℚ) / ballCount) * o.pi * 2
      ((w : ℚ) / 2 + o.cos (angle + t * 0.5) * (radius * (1 + 0.3 * o.sin (t * 0.3 + (i : ℚ)))),
       (h : ℚ) / 2 + o.sin (angle + t * 0.4) * (radius * (1 + 0.3 * o.cos (t * 0.25 + (i : ℚ) * 2)))))
  (List.range h).foldl
    (fun b (hy : ℕ) =>
      (List.range w).foldl
        (fun b2 (hx : ℕ) =>
          let minDist := positions.foldl
            (fun (m : Option ℚ) p =>
              let dx := (hx : ℚ) - p.1
              let dy := (hy : ℚ) - p.2
              let d := o.sqrt (dx * dx + dy * dy)
              match m with
              | Option.none => Option.some d
              | Option.some md => if d < md then Option.some d else Option.some md)
            Option.none
          let v := match minDist with
            | Option.none => 0
            | Option.some md => max 0 (1 - md / radius)
          let colorVal := packZ (colorFromValue o cm v (hx : ℚ) (hy : ℚ) t)
          aset b2 (hy * w + hx) colorVal)
        b)
    buf

/-- The pattern dispatch of renderFrame: given the per-frame generator
state, produce the pattern-plus-color stage output together with the
generator state left for the distortion stage. -/
def renderPattern (o : MathOracle) (pat : Pattern) (cm : ColorMode) (ps w h : ℕ) (t : ℚ)
    (pp : PatternParams) (buf : Array ℕ) (rng : ℕ) : Array ℕ × ℕ :=
  match pat with
  | Pattern.pixels => patternPixels cm ps w h buf rng
  | Pattern.horizontalLines => patternHorizontalLines cm ps w h buf rng
  | Pattern.verticalLines => patternVerticalLines cm ps w h buf rng
  | Pattern.staticP => patternStatic cm ps w h buf rng
  | Pattern.glitch => patternGlitch cm ps w h buf rng
  | Pattern.checkerboard => (patternCheckerboard o cm ps w h t buf, rng)
  | Pattern.diagonal => (patternDiagonal o cm ps w h t buf, rng)
  | Pattern.waves => (patternWaves o cm ps w h t buf, rng)
  | Pattern.blocks => (patternBlocks o cm ps w h t buf, rng)
  | Pattern.scanlines => (patternScanlines o cm ps w h t buf, rng)
  | Pattern.plasma => (patternPlasma o cm ps w h t buf, rng)
  | Pattern.cellular => (patternCellular o cm ps w h t buf, rng)
  | Pattern.fbm => (patternFbm o cm ps w h t pp buf, rng)
  | Pattern.domainWarp => (patternDomainWarp o cm ps w h t pp buf, rng)
  | Pattern.ridged => (patternRidged o cm ps w h t pp buf, rng)
  | Pattern.halftone => (patternHalftone o cm ps w h t pp buf, rng)
  | Pattern.hatching => (patternHatching o cm ps w h t pp buf, rng)
  | Pattern.moire => (patternMoire o cm ps w h t pp buf, rng)
  | Pattern.gradientBands => (patternGradientBands o cm ps w h t pp buf, rng)
  | Pattern.metaballs => (patternMetaballs o cm ps w h t pp buf, rng)

/-- Map a function over every pixel word of a rectangle, used for the
in-place pointwise distortion loops. -/
def mapRect (buf : Array ℕ) (w x0 x1 y0 y1 : ℕ) (f : ℕ → ℕ) : Array ℕ :=
  (List.range' y0 (y1 - y0)).foldl
    (fun b (py : ℕ) =>
      (List.range' x0 (x1 - x0)).foldl
        (fun b2 (px : ℕ) => aset b2 (py * w + px) (f (b2.getD (py * w + px) 0)))
        b)
    buf

/-- Replace the R byte of a packed word. -/
def setRByte (wrd v : ℕ) : ℕ := wrd - rByte wrd + v

/-- Replace the B byte of a packed word. -/
def setBByte (wrd v : ℕ) : ℕ := wrd - bByte wrd * 65536 + v * 65536

/-- One write of the resampling loops: pixel (x, y) is rewritten to
v x y when cond x y holds and is left untouched otherwise. -/
def rowStep (w : ℕ) (cond : ℕ → ℕ → Bool) (v : ℕ → ℕ → ℕ) (y : ℕ) (b : Array ℕ)
    (x : ℕ) : Array ℕ :=
  if cond x y then aset b (y * w + x) (v x y) else b

/-- The inner x loop of the resampling distortions over one row. -/
def rowFold (w : ℕ) (cond : ℕ → ℕ → Bool) (v : ℕ → ℕ → ℕ) (y n : ℕ) (b : Array ℕ) :
    Array ℕ :=
  (List.range n).foldl (rowStep w cond v y) b

/-- The per-output-pixel loop shared by the resampling distortions.  Each
iteration writes only its own index, which is what the out-of-bounds
claims rest on. -/
def resampleLoop (w h : ℕ) (cond : ℕ → ℕ → Bool) (v : ℕ → ℕ → ℕ) (buf : Array ℕ) :
    Array ℕ :=
  (List.range h).foldl (fun b (y : ℕ) => rowFold w cond v y w b) buf

/-- The inverse-mapped source coordinate of the vortex distortion for
output pixel (x, y), exactly as the source computes it. -/
def vortexSrc (o : MathOracle) (w h : ℕ) (intensity secondary : ℚ) (x y : ℕ) : ℚ × ℚ :=
  let centerX : ℚ := (w : ℚ) / 2
  let centerY : ℚ := (h : ℚ) / 2
  let strength := intensity * 2
  let radius := ((min w h : ℕ) : ℚ) * secondary
  let dx := (x : ℚ) - centerX
  let dy := (y : ℚ) - centerY
  let dist := o.sqrt (dx * dx + dy * dy)
  let angle := o.atan2 dy dx
  let twist := strength * (1 - dist / radius)
  let newAngle := angle + twist
  (centerX + o.cos newAngle * dist, centerY + o.sin newAngle * dist)

/-- The dist < radius gate of the vortex distortion. -/
def vortexActive (o : MathOracle) (w h : ℕ) (secondary : ℚ) (x y : ℕ) : Bool :=
  let centerX : ℚ := (w : ℚ) / 2
  let centerY : ℚ := (h : ℚ) / 2
  let radius := ((min w h : ℕ) : ℚ) * secondary
  let dx := (x : ℚ) - centerX
  let dy := (y : ℚ) - centerY
  decide (o.sqrt (dx * dx + dy * dy) < radius)

/-- Bounds test srcX >= 0 && srcX < width && srcY >= 0 && srcY < height
of the resampling distortions. -/
def inBoundsQ (w h : ℕ) (sx sy : ℚ) : Bool :=
  decide (0 ≤ sx ∧ sx < (w : ℚ) ∧ 0 ≤ sy ∧ sy < (h : ℚ))

/-- The vortex branch: resample RGB from an unmodified copy of the buffer
through the swirl inverse map; pixels whose gate or bounds test fails
are left untouched, and alpha is never rewritten.  Reading the
destination alpha from the copy is sound because each destination pixel
is written at most once, by its own iteration. -/
def distortVortex (o : MathOracle) (w h : ℕ) (intensity secondary : ℚ) (buf : Array ℕ) :
    Array ℕ :=
  resampleLoop w h
    (fun x y =>
      vortexActive o w h secondary x y &&
        (let s := vortexSrc o w h intensity secondary x y
         inBoundsQ w h s.1 s.2))
    (fun x y =>
      let s := vortexSrc o w h intensity secondary x y
      let srcIdx := (⌊s.2⌋).toNat * w + (⌊s.1⌋).toNat
      let sv := buf.getD srcIdx 0
      let dv := buf.getD (y * w + x) 0
      setRGBKeepA dv (rByte sv) (gByte sv) (bByte sv))
    buf

/-- The inverse-mapped source coordinate of the fisheye distortion. -/
def fisheyeSrc (o : MathOracle) (w h : ℕ) (intensity : ℚ) (x y : ℕ) : ℚ × ℚ :=
  let centerX : ℚ := (w : ℚ) / 2
  let centerY : ℚ := (h : ℚ) / 2
  let maxDist := o.sqrt (centerX * centerX + centerY * centerY)
  let dx := (x : ℚ) - centerX
  let dy := (y : ℚ) - centerY
  let dist := o.sqrt (dx * dx + dy * dy)
  let f := dist / maxDist
  let f2 := 1 + intensity * f * f
  (centerX + dx * f2, centerY + dy * f2)

/-- The dist < maxDist gate of the fisheye distortion. -/
def fisheyeActive (o : MathOracle) (w h : ℕ) (x y : ℕ) : Bool :=
  let centerX : ℚ := (w : ℚ) / 2
  let centerY : ℚ := (h : ℚ) / 2
  let maxDist := o.sqrt (centerX * centerX + centerY * centerY)
  let dx := (x : ℚ) - centerX
  let dy := (y : ℚ) - centerY
  decide (o.sqrt (dx * dx + dy * dy) < maxDist)

/-- The fisheye branch, structured like the vortex branch. -/
def distortFisheye (o : MathOracle) (w h : ℕ) (intensity : ℚ) (buf : Array ℕ) : Array ℕ :=
  resampleLoop w h
    (fun x y =>
      fisheyeActive o w h x y &&
        (let s := fisheyeSrc o w h intensity x y
         inBoundsQ w h s.1 s.2))
    (fun x y =>
      let s := fisheyeSrc o w h intensity x y
      let srcIdx := (⌊s.2⌋).toNat * w + (⌊s.1⌋).toNat
      let sv := buf.getD srcIdx 0
      let dv := buf.getD (y * w + x) 0
      setRGBKeepA dv (rByte sv) (gByte sv) (bByte sv))
    buf

/-- The cyberpunk branch: contrast boost and tint per pixel, then one
glitch-gate draw and, when it fires, a bright band with position and
height draws. -/
def distortCyberpunk (intensity secondary : ℚ) (w h : ℕ) (buf : Array ℕ) (rng : ℕ) :
    Array ℕ × ℕ :=
  let factor := 1 + intensity
  let buf1 := buf.map (fun wrd =>
    let r1 := u8clamp (min 255 (max 0 (((rByte wrd : ℚ) - 128) * factor + 128)))
    let g1 := u8clamp (min 255 (max 0 (((gByte wrd : ℚ) - 128) * factor + 128)))
    let b1 := u8clamp (min 255 (max 0 (((bByte wrd : ℚ) - 128) * factor + 128)))
    if b1 < r1 then
      setRGBKeepA wrd (u8clamp (min 255 ((r1 : ℚ) + 50 * intensity))) g1
        (u8clamp (min 255 ((b1 : ℚ) + 20 * intensity)))
    else
      setRGBKeepA wrd r1 (u8clamp (min 255 ((g1 : ℚ) + 50 * intensity)))
        (u8clamp (min 255 ((b1 : ℚ) + 50 * intensity))))
  let gate := randQ rng
  let rng1 := (mulberry32Next rng).1
  if gate < secondary then
    let (rng2, y) := randIntDraw rng1 h
    let (rng3, hd) := randIntDraw rng2 20
    let bandH := hd + 2
    (mapRect buf1 w 0 w y (min h (y + bandH)) (fun wrd => setRGBKeepA wrd 255 0 255), rng3)
  else (buf1, rng1)

/-- The matrix distortion branch: green rescale per pixel with a sparkle
draw consumed for every pixel. -/
def distortMatrix (intensity : ℚ) (w h : ℕ) (buf : Array ℕ) (rng : ℕ) : Array ℕ × ℕ :=
  (List.range (w * h)).foldl
    (fun (st : Array ℕ × ℕ) i =>
      let wrd := st.1.getD i 0
      let gray : ℚ := ((rByte wrd : ℚ) + (gByte wrd : ℚ) + (bByte wrd : ℚ)) / 3
      let base := setRGBKeepA wrd 0 (u8clamp (min 255 (gray * (1 + intensity)))) 0
      let k := randQ st.2
      let rng' := (mulberry32Next st.2).1
      if k < 0.001 * intensity then (aset st.1 i (setRGBKeepA wrd 200 255 200), rng')
      else (aset st.1 i base, rng'))
    (buf, rng)

/-- The chromatic-aberration branch: horizontal channel shifts reading
from an unmodified copy, writing the R channel offset pixels right and
the B channel offset pixels left within the same row. -/
def distortChromatic (intensity : ℚ) (w h : ℕ) (buf : Array ℕ) : Array ℕ :=
  let offset := (max 1 ⌊intensity * 10⌋).toNat
  (List.range (w * h)).foldl
    (fun b i =>
      let x := i % w
      let b1 :=
        if x + offset < w then
          aset b (i + offset) (setRByte (b.getD (i + offset) 0) (rByte (buf.getD i 0)))
        else b
      if offset ≤ x then
        aset b1 (i - offset) (setBByte (b1.getD (i - offset) 0) (bByte (buf.getD i 0)))
      else b1)
    buf

/-- The scanlines distortion branch: darken every thickness-th row by the
secondary factor. -/
def distortScanlinesD (intensity secondary : ℚ) (w h : ℕ) (buf : Array ℕ) : Array ℕ :=
  let thickness := (max 1 ⌊intensity * 5⌋).toNat
  (List.range h).foldl
    (fun b (y : ℕ) =>
      if y % thickness = 0 then
        mapRect b w 0 w y (y + 1) (fun wrd =>
          setRGBKeepA wrd (u8clamp ((rByte wrd : ℚ) * secondary))
            (u8clamp ((gByte wrd : ℚ) * secondary)) (u8clamp ((bByte wrd : ℚ) * secondary)))
      else b)
    buf

/-- The noise-overlay branch: one draw per pixel, the same offset added
to all three channels. -/
def distortNoiseOverlay (intensity : ℚ) (w h : ℕ) (buf : Array ℕ) (rng : ℕ) :
    Array ℕ × ℕ :=
  let amount := intensity * 100
  (List.range (w * h)).foldl
    (fun (st : Array ℕ × ℕ) i =>
      let n := (randQ st.2 - 0.5) * amount
      let rng' := (mulberry32Next st.2).1
      let wrd := st.1.getD i 0
      (aset st.1 i
        (setRGBKeepA wrd (u8clamp ((rByte wrd : ℚ) + n)) (u8clamp ((gByte wrd : ℚ) + n))
          (u8clamp ((bByte wrd : ℚ) + n))), rng'))
    (buf, rng)

/-- The pixelate branch: each block takes the RGB of its top-left corner,
read from the live buffer (the corner keeps its own value, so this
matches reading a copy). -/
def distortPixelate (intensity : ℚ) (w h : ℕ) (buf : Array ℕ) : Array ℕ :=
  let bs := (max 2 ⌊intensity * 20⌋).toNat
  (List.range (ceilDivN h bs)).foldl
    (fun b (iy : ℕ) =>
      let y := iy * bs
      (List.range (ceilDivN w bs)).foldl
        (fun b2 (ix : ℕ) =>
          let x := ix * bs
          let corner := b2.getD (y * w + x) 0
          mapRect b2 w x (min (x + bs) w) y (min (y + bs) h)
            (fun wrd => setRGBKeepA wrd (rByte corner) (gByte corner) (bByte corner)))
        b)
    buf

/-- applyDistortion from the source: the distortion dispatch.  The tag
none short-circuits before the switch; every tag without an implemented
case falls into the default branch; both leave the buffer untouched and
consume no draw. -/
def applyDistortion (o : MathOracle) (d : Distortion) (intensity secondary : ℚ)
    (w h : ℕ) (buf : Array ℕ) (rng : ℕ) : Array ℕ × ℕ :=
  match d with
  | Distortion.none => (buf, rng)
  | Distortion.cyberpunk => distortCyberpunk intensity secondary w h buf rng
  | Distortion.vortex => (distortVortex o w h intensity secondary buf, rng)
  | Distortion.matrix => distortMatrix intensity w h buf rng
  | Distortion.chromaticAberration => (distortChromatic intensity w h buf, rng)
  | Distortion.scanlines => (distortScanlinesD intensity secondary w h buf, rng)
  | Distortion.noiseOverlay => distortNoiseOverlay intensity w h buf rng
  | Distortion.pixelate => (distortPixelate intensity w h buf, rng)
  | Distortion.fisheye => (distortFisheye o w h intensity buf, rng)
  | _ => (buf, rng)

/-- The distortion tags without an implemented branch in applyDistortion
(the default case of the switch), together with the always short-circuiting
none. -/
def noBranch (d : Distortion) : Bool :=
  match d with
  | Distortion.cyberpunk | Distortion.vortex | Distortion.matrix
  | Distortion.chromaticAberration | Distortion.scanlines | Distortion.noiseOverlay
  | Distortion.pixelate | Distortion.fisheye => false
  | _ => true

/-- The settings snapshot consumed by one render: pixelSize, speed,
colorMode, pattern, distortion with its two parameters, and the
pattern-specific knobs. -/
structure Settings where
  pixelSize : ℕ
  speed : ℚ
  colorMode : ColorMode
  pattern : Pattern
  distortion : Distortion
  intensity : ℚ
  secondary : ℚ
  patternParams : PatternParams

/-- The pixel bytes renderFrame produces for one frame: the per-frame
generator is derived from mixSeed, the pattern-plus-color stage fills a
zeroed buffer, and the distortion stage rewrites it, consuming the same
generator stream after the pattern. -/
def renderBytes (o : MathOracle) (cfg : Settings) (seed frame w h : ℕ) : Array ℕ :=
  let rng0 := mixSeed seed frame
  let t : ℚ := (frame : ℚ) / 30
  let buf0 := Array.mkArray (w * h) 0
  let pr := renderPattern o cfg.pattern cfg.colorMode cfg.pixelSize w h t cfg.patternParams
    buf0 rng0
  (applyDistortion o cfg.distortion cfg.intensity cfg.secondary w h pr.1 pr.2).1

/-- renderFrame from the source as a transition on the mutable state it
touches: it returns early on a zero-area surface, otherwise records the
frame in the timeline window and produces the pixel bytes.  By
construction of the source the pixel bytes read nothing from the window
bookkeeping. -/
def renderFrame (o : MathOracle) (cfg : Settings) (seed frame w h : ℕ) (win : Window) :
    Window × Option (Array ℕ) :=
  if w = 0 ∨ h = 0 then (win, Option.none)
  else (ensureWindowContainsFrame win frame, Option.some (renderBytes o cfg seed frame w h))

/-- The engine state the transport controls operate on: the absolute
frame index, the timeline window, and the currently displayed bytes. -/
structure EngineState where
  frame : ℕ
  win : Window
  displayed : Array ℕ

/-- stepForward from the source: advance one frame and re-render. -/
def stepForwardE (o : MathOracle) (cfg : Settings) (seed w h : ℕ) (st : EngineState) :
    EngineState :=
  let f := st.frame + 1
  let r := renderFrame o cfg seed f w h st.win
  ⟨f, r.1, r.2.getD st.displayed⟩

/-- stepBackward from the source: move back one frame clamped to the
window start and re-render. -/
def stepBackwardE (o : MathOracle) (cfg : Settings) (seed w h : ℕ) (st : EngineState) :
    EngineState :=
  let f := stepBackResolve st.win st.frame
  let r := renderFrame o cfg seed f w h st.win
  ⟨f, r.1, r.2.getD st.displayed⟩

/-- The per-tick scheduler state: absolute frame counter, window,
displayed bytes, fixed-timestep accumulator, dropped-frame counter and
the fps sampling anchors. -/
structure TickState where
  frame : ℕ
  win : Window
  displayed : Array ℕ
  acc : ℚ
  dropped : ℕ
  lastFpsTime : ℚ
  lastFrameCount : ℕ
  actualFps : ℤ

/-- The capped catch-up loop of animate: while the accumulator holds at
least one fixed step and fewer than the cap have run, advance and
render one frame. -/
def animateSteps (o : MathOracle) (cfg : Settings) (seed w h : ℕ) (fixedDt : ℚ) :
    ℕ → TickState → TickState
  | 0, st => st
  | n + 1, st =>
    if fixedDt ≤ st.acc then
      let f := st.frame + 1
      let r := renderFrame o cfg seed f w h st.win
      animateSteps o cfg seed w h fixedDt n
        { st with frame := f, win := r.1, displayed := r.2.getD st.displayed,
                  acc := st.acc - fixedDt }
    else st

/-- One animate tick from the source, with the elapsed frameTime and the
wall-clock now supplied by the host: if paused, only clear the
accumulator; otherwise accumulate, run at most five fixed steps, fold
any remaining whole steps into droppedFrames with the accumulator
reduced modulo fixedDt, and sample the fps counter once a second. -/
def animate (o : MathOracle) (cfg : Settings) (seed w h : ℕ) (isPaused : Bool)
    (fixedDt frameTime now : ℚ) (st : TickState) : TickState :=
  if isPaused then { st with acc := 0 }
  else
    let st1 := { st with acc := st.acc + frameTime }
    let st2 := animateSteps o cfg seed w h fixedDt 5 st1
    let st3 :=
      if fixedDt ≤ st2.acc then
        { st2 with dropped := st2.dropped + (⌊st2.acc / fixedDt⌋).toNat,
                   acc := jsModQ st2.acc fixedDt }
      else st2
    if 1000 ≤ now - st3.lastFpsTime then
      { st3 with actualFps := (st3.frame : ℤ) - (st3.lastFrameCount : ℤ),
                 lastFrameCount := st3.frame, lastFpsTime := now }
    else st3

theorem size_aset (a : Array ℕ) (i v : ℕ) : (aset a i v).size = a.size := by
  unfold aset
  split <;> simp [Array.size_set]

theorem getD_aset_self (a : Array ℕ) (i v : ℕ) (h : i < a.size) :
    (aset a i v).getD i 0 = v := by
  unfold aset
  rw [dif_pos h]
  simp [Array.getD, Array.size_set, h, Array.get_set]

theorem getD_aset_ne (a : Array ℕ) (i v j : ℕ) (h : j ≠ i) :
    (aset a i v).getD j 0 = a.getD j 0 := by
  unfold aset
  split
  · by_cases hj : j < a.size
    · simp [Array.getD, Array.size_set, hj, Array.get_set, Ne.symm h]
    · simp [Array.getD, Array.size_set, hj]
  · rfl

theorem size_rowFold (w : ℕ) (cond : ℕ → ℕ → Bool) (v : ℕ → ℕ → ℕ) (y n : ℕ)
    (b : Array ℕ) : (rowFold w cond v y n b).size = b.size := by
  induction n with
  | zero => rfl
  | succ n ih =>
    show ((List.range (n + 1)).foldl (rowStep w cond v y) b).size = b.size
    rw [List.range_succ, List.foldl_append]
    show (rowStep w cond v y (rowFold w cond v y n b) n).size = b.size
    unfold rowStep
    split <;> simp [size_aset, ih]

theorem rowFold_getD_same (w : ℕ) (cond : ℕ → ℕ → Bool) (v : ℕ → ℕ → ℕ) (y n : ℕ)
    (b : Array ℕ) (x : ℕ) (_hx : x < w) (hidx : y * w + x < b.size) :
    (rowFold w cond v y n b).getD (y * w + x) 0 =
      if x < n ∧ cond x y = true then v x y else b.getD (y * w + x) 0 := by
  induction n with
  | zero => simp [rowFold]
  | succ n ih =>
    show ((List.range (n + 1)).foldl (rowStep w cond v y) b).getD (y * w + x) 0 = _
    rw [List.range_succ, List.foldl_append]
    show (rowStep w cond v y (rowFold w cond v y n b) n).getD (y * w + x) 0 = _
    by_cases hxn : x = n
    · subst hxn
      unfold rowStep
      by_cases hc : cond x y = true
      · rw [if_pos hc, getD_aset_self _ _ _ (by rw [size_rowFold]; exact hidx)]
        simp [hc]
      · rw [if_neg hc, ih]
        simp [hc]
    · have hne : y * w + x ≠ y * w + n := by omega
      have hstep : (rowStep w cond v y (rowFold w cond v y n b) n).getD (y * w + x) 0 =
          (rowFold w cond v y n b).getD (y * w + x) 0 := by
        unfold rowStep
        split
        · exact getD_aset_ne _ _ _ _ hne
        · rfl
      rw [hstep, ih]
      have hiff : (x < n ∧ cond x y = true) ↔ (x < n + 1 ∧ cond x y = true) := by
        constructor
        · rintro ⟨h1, h2⟩
          exact ⟨by omega, h2⟩
        · rintro ⟨h1, h2⟩
          exact ⟨by omega, h2⟩
      exact if_congr hiff rfl rfl

theorem idx_inj (w y x y₀ x₀ : ℕ) (hx : x < w) (hx₀ : x₀ < w)
    (he : y * w + x = y₀ * w + x₀) : y = y₀ ∧ x = x₀ := by
  have key : ∀ a b : ℕ, a < b → a * w + x < b * w ∧ a * w + x₀ < b * w := by
    intro a b hab
    have h1 : (a + 1) * w ≤ b * w := Nat.mul_le_mul_right w (by omega)
    have h2 : (a + 1) * w = a * w + w := by ring
    omega
  have hyy : y = y₀ := by
    rcases Nat.lt_trichotomy y y₀ with h | h | h
    · exfalso
      have h1 := (key y y₀ h).1
      have h2 : y₀ * w ≤ y₀ * w + x₀ := Nat.le_add_right _ _
      omega
    · exact h
    · exfalso
      have h1 := (key y₀ y h).2
      have h2 : y * w ≤ y * w + x := Nat.le_add_right _ _
      omega
  refine ⟨hyy, ?_⟩
  subst hyy
  omega

theorem rowFold_getD_ne_row (w : ℕ) (cond : ℕ → ℕ → Bool) (v : ℕ → ℕ → ℕ) (y n : ℕ)
    (b : Array ℕ) (y₀ x₀ : ℕ) (hx : x₀ < w) (hn : n ≤ w) (hy : y ≠ y₀) :
    (rowFold w cond v y n b).getD (y₀ * w + x₀) 0 = b.getD (y₀ * w + x₀) 0 := by
  induction n with
  | zero => rfl
  | succ n ih =>
    show ((List.range (n + 1)).foldl (rowStep w cond v y) b).getD (y₀ * w + x₀) 0 = _
    rw [List.range_succ, List.foldl_append]
    show (rowStep w cond v y (rowFold w cond v y n b) n).getD (y₀ * w + x₀) 0 = _
    have hne : y₀ * w + x₀ ≠ y * w + n := by
      intro he
      exact hy (idx_inj w y n y₀ x₀ (by omega) hx he.symm).1
    have hstep : (rowStep w cond v y (rowFold w cond v y n b) n).getD (y₀ * w + x₀) 0 =
        (rowFold w cond v y n b).getD (y₀ * w + x₀) 0 := by
      unfold rowStep
      split
      · exact getD_aset_ne _ _ _ _ hne
      · rfl
    rw [hstep, ih (by omega)]

theorem size_resampleRows (w : ℕ) (cond : ℕ → ℕ → Bool) (v : ℕ → ℕ → ℕ) (m : ℕ)
    (b : Array ℕ) :
    ((List.range m).foldl (fun b2 (yy : ℕ) => rowFold w cond v yy w b2) b).size = b.size := by
  induction m with
  | zero => rfl
  | succ m ih =>
    rw [List.range_succ, List.foldl_append]
    show (rowFold w cond v m w _).size = b.size
    rw [size_rowFold]
    exact ih

theorem rows_getD_preserve (w : ℕ) (cond : ℕ → ℕ → Bool) (v : ℕ → ℕ → ℕ) (m : ℕ)
    (b : Array ℕ) (x y : ℕ) (hx : x < w) (hm : m ≤ y) :
    ((List.range m).foldl (fun b2 (yy : ℕ) => rowFold w cond v yy w b2) b).getD
      (y * w + x) 0 = b.getD (y * w + x) 0 := by
  induction m with
  | zero => rfl
  | succ m ih =>
    rw [List.range_succ, List.foldl_append]
    show (rowFold w cond v m w _).getD (y * w + x) 0 = _
    rw [rowFold_getD_ne_row w cond v m w _ y x hx (le_refl w) (by omega)]
    exact ih (by omega)

theorem resampleLoop_getD (w h : ℕ) (cond : ℕ → ℕ → Bool) (v : ℕ → ℕ → ℕ)
    (buf : Array ℕ) (x y : ℕ) (hx : x < w) (hy : y < h) (hidx : y * w + x < buf.size) :
    (resampleLoop w h cond v buf).getD (y * w + x) 0 =
      if cond x y = true then v x y else buf.getD (y * w + x) 0 := by
  unfold resampleLoop
  have main : ∀ m, y < m →
      ((List.range m).foldl (fun b2 (yy : ℕ) => rowFold w cond v yy w b2) buf).getD
        (y * w + x) 0 = if cond x y = true then v x y else buf.getD (y * w + x) 0 := by
    intro m
    induction m with
    | zero => omega
    | succ m ih =>
      intro hym
      rw [List.range_succ, List.foldl_append]
      show (rowFold w cond v m w _).getD (y * w + x) 0 = _
      by_cases hyeq : y = m
      · subst hyeq
        rw [rowFold_getD_same w cond v y w _ x hx
          (by rw [size_resampleRows]; exact hidx)]
        rw [rows_getD_preserve w cond v y buf x y hx (le_refl y)]
        simp [hx]
      · rw [rowFold_getD_ne_row w cond v m w _ y x hx (le_refl w) (fun he => hyeq he.symm)]
        exact ih (by omega)
  exact main h hy

theorem ensure_inv (w : Window) (f : ℕ) (h : 1 ≤ w.size ∧ w.size ≤ maxWindowFrames ∨ w.size = 0) :
    1 ≤ (ensureWindowContainsFrame w f).size ∧
      (ensureWindowContainsFrame w f).size ≤ maxWindowFrames := by
  rcases w with ⟨s, n⟩
  simp only [ensureWindowContainsFrame, maxWindowFrames] at *
  split_ifs <;> dsimp only at * <;> omega

theorem ensure_fold_inv (fs : List ℕ) (w : Window)
    (h : 1 ≤ w.size ∧ w.size ≤ maxWindowFrames) :
    1 ≤ (fs.foldl ensureWindowContainsFrame w).size ∧
      (fs.foldl ensureWindowContainsFrame w).size ≤ maxWindowFrames := by
  induction fs generalizing w with
  | nil => exact h
  | cons f fs ih =>
    exact ih (ensureWindowContainsFrame w f) (ensure_inv w f (Or.inl h))

theorem seek_image (w : Window) (hs : 1 ≤ w.size) (a : ℤ) :
    (∃ i : ℤ, seekResolve w i = a) ↔
      (w.start : ℤ) ≤ a ∧ a < (w.start : ℤ) + (w.size : ℤ) := by
  constructor
  · rintro ⟨i, hi⟩
    simp only [seekResolve] at hi
    omega
  · rintro ⟨h1, h2⟩
    refine ⟨a - (w.start : ℤ), ?_⟩
    simp only [seekResolve]
    omega

theorem ensure_start_le (w : Window) (frame : ℕ) (h1 : 1 ≤ w.size)
    (h2 : w.size ≤ maxWindowFrames) (h3 : w.start ≤ frame) :
    (ensureWindowContainsFrame w (frame + 1)).start ≤ frame := by
  rcases w with ⟨s, n⟩
  simp only [ensureWindowContainsFrame, maxWindowFrames] at *
  split_ifs <;> dsimp only at * <;> omega

/-- C1: for fixed base seed, frame index, settings snapshot and surface
size, renderFrame produces byte-identical pixel buffers on every
invocation; the timeline-window bookkeeping, the only other mutable
state renderFrame touches, has no influence on the rendered bytes. -/
theorem renderFrame_deterministic (o : MathOracle) (cfg : Settings) (seed frame w h : ℕ)
    (win₁ win₂ : Window) :
    (renderFrame o cfg seed frame w h win₁).2 = (renderFrame o cfg seed frame w h win₂).2 := by
  by_cases hc : w = 0 ∨ h = 0 <;> simp [renderFrame, hc]

theorem ensure_grow_in_order (n : ℕ) (h1 : 1 ≤ n) :
    (List.range n).foldl ensureWindowContainsFrame ⟨0, 0⟩ =
      if n ≤ 600 then ⟨0, n⟩ else ⟨n - 600, 600⟩ := by
  induction n with
  | zero => omega
  | succ n ih =>
    rw [List.range_succ, List.foldl_append]
    simp only [List.foldl_cons, List.foldl_nil]
    by_cases hn : n = 0
    · subst hn
      simp only [List.range_zero, List.foldl_nil]
      decide
    · rw [ih (by omega)]
      by_cases h6 : n ≤ 600
      · rw [if_pos h6]
        have step : ensureWindowContainsFrame ⟨0, n⟩ n =
            if n + 1 ≤ 600 then (⟨0, n + 1⟩ : Window) else ⟨n + 1 - 600, 600⟩ := by
          simp only [ensureWindowContainsFrame, maxWindowFrames]
          split_ifs <;> simp_all [Window.mk.injEq] <;> omega
        exact step
      · rw [if_neg h6]
        have step : ensureWindowContainsFrame ⟨n - 600, 600⟩ n =
            if n + 1 ≤ 600 then (⟨0, n + 1⟩ : Window) else ⟨n + 1 - 600, 600⟩ := by
          simp only [ensureWindowContainsFrame, maxWindowFrames]
          split_ifs <;> simp_all [Window.mk.injEq] <;> omega
        exact step

/-- C3: ensuring frames 0 through 699 in order from the empty window
leaves the window at start 100 and size 600. -/
theorem window_growth_0_699 :
    (List.range 700).foldl ensureWindowContainsFrame ⟨0, 0⟩ = ⟨100, 600⟩ := by
  rw [ensure_grow_in_order 700 (by omega)]
  norm_num

/-- C7: the distortion stage with tag none, or with any tag that has no
implemented branch (vhs, glow, dither, blur and the rest of the default
case), returns the pattern-plus-color output bitwise unchanged and
consumes no generator draw. -/
theorem distortion_noop (o : MathOracle) (i s : ℚ) (w h : ℕ) (buf : Array ℕ) (rng : ℕ)
    (d : Distortion) (hd : noBranch d = true) :
    applyDistortion o d i s w h buf rng = (buf, rng) := by
  cases d <;> simp_all [noBranch, applyDistortion]

theorem distortion_noop_witness :
    noBranch Distortion.vhs = true ∧
      applyDistortion zeroOracle Distortion.vhs 0 0 1 1 #[5] 7 = (#[5], 7) :=
  ⟨by decide, distortion_noop zeroOracle 0 0 1 1 #[5] 7 Distortion.vhs (by decide)⟩

/-- C9 counterexample: the checker-grid pattern is not a per-block direct
RGB draw from the per-frame generator, unlike the purely stochastic
patterns.  At a concrete 2 by 2 surface at frame 0, the checkerboard
branch returns the generator state unchanged and produces the same
buffer under base seeds 1 and 999, while the stochastic per-block
branch (pixels) advances the generator and produces seed-dependent
buffers. -/
theorem checkerboard_not_stochastic :
    (renderPattern zeroOracle Pattern.checkerboard ColorMode.monochrome 1 2 2 0 {}
        (Array.mkArray 4 0) (mixSeed 1 0)).2 = mixSeed 1 0 ∧
      (renderPattern zeroOracle Pattern.pixels ColorMode.monochrome 1 2 2 0 {}
        (Array.mkArray 4 0) (mixSeed 1 0)).2 ≠ mixSeed 1 0 ∧
      (renderPattern zeroOracle Pattern.checkerboard ColorMode.monochrome 1 2 2 0 {}
        (Array.mkArray 4 0) (mixSeed 1 0)).1 =
        (renderPattern zeroOracle Pattern.checkerboard ColorMode.monochrome 1 2 2 0 {}
          (Array.mkArray 4 0) (mixSeed 999 0)).1 ∧
      (renderPattern zeroOracle Pattern.pixels ColorMode.monochrome 1 2 2 0 {}
        (Array.mkArray 4 0) (mixSeed 1 0)).1 ≠
        (renderPattern zeroOracle Pattern.pixels ColorMode.monochrome 1 2 2 0 {}
          (Array.mkArray 4 0) (mixSeed 999 0)).1 :=
  ⟨rfl, by decide, rfl, by decide⟩

/-- C9 amended: the checker-grid block colors are independent of the
per-frame generator: the checkerboard branch consumes no draws (the
state passes through unchanged) and its buffer does not depend on the
generator state; the two block colors come from colorFromValue at the
frame time and are assigned by block parity. -/
theorem checkerboard_consumes_no_draws (o : MathOracle) (cm : ColorMode) (ps w h : ℕ)
    (t : ℚ) (pp : PatternParams) (buf : Array ℕ) (rng₁ rng₂ : ℕ) :
    (renderPattern o Pattern.checkerboard cm ps w h t pp buf rng₁).2 = rng₁ ∧
      (renderPattern o Pattern.checkerboard cm ps w h t pp buf rng₁).1 =
        (renderPattern o Pattern.checkerboard cm ps w h t pp buf rng₂).1 :=
  ⟨rfl, rfl⟩

/-- C10: a caller-supplied seed is adopted exactly when strictly positive;
a zero or negative seed behaves like an omitted one, falling back to the
cryptographic word, and that fallback is never zero. -/
theorem initSeed_positive_gate (p : ℤ) (cw : ℕ) :
    (0 < p → initSeed (Option.some p) cw = p) ∧
      (p ≤ 0 → initSeed (Option.some p) cw = initSeed Option.none cw) ∧
      initSeed Option.none cw ≠ 0 := by
  refine ⟨fun hp => by simp [initSeed, hp], fun hp => by simp [initSeed, not_lt.mpr hp], ?_⟩
  by_cases hcw : cw = 0 <;> simp [initSeed, hcw]

theorem initSeed_positive_gate_witness :
    initSeed (Option.some (-2)) 0 = initSeed Option.none 0 ∧ initSeed Option.none 0 ≠ 0 :=
  ⟨(initSeed_positive_gate (-2) 0).2.1 (by decide), (initSeed_positive_gate (-2) 0).2.2⟩

/-- C6: with a nonempty window, seekToFrame resolves index i to start + i
clamped into the window, in particular -5 to the window start and
size + 5 to the window end, and stepBackward never resolves below the
window start; out-of-window requests are clamped, never an error. -/
theorem seek_clamp (win : Window) (i : ℤ) (f : ℕ) (hs : 1 ≤ win.size) :
    seekResolve win i =
        max (win.start : ℤ)
          (min ((win.start : ℤ) + i) ((win.start : ℤ) + (win.size : ℤ) - 1)) ∧
      seekResolve win (-5) = (win.start : ℤ) ∧
      seekResolve win ((win.size : ℤ) + 5) = (win.start : ℤ) + (win.size : ℤ) - 1 ∧
      win.start ≤ stepBackResolve win f := by
  simp only [seekResolve, stepBackResolve]
  refine ⟨by omega, by omega, by omega, by omega⟩

theorem seek_clamp_witness :
    seekResolve ⟨3, 5⟩ (-5) = ((Window.mk 3 5).start : ℤ) ∧
      (Window.mk 3 5).start ≤ stepBackResolve ⟨3, 5⟩ 0 :=
  ⟨(seek_clamp ⟨3, 5⟩ 2 0 (by decide)).2.1, (seek_clamp ⟨3, 5⟩ 2 0 (by decide)).2.2.2⟩

/-- C4: starting from the initial empty window, after every call of
ensureWindowContainsFrame the window size is between 0 and the capacity
600 (indeed between 1 and 600 once at least one call has run; 0 <= size
is automatic on naturals), and the set of absolute frame indices
reachable by a seek request is exactly the contiguous range from start
(inclusive) to start + size (exclusive). -/
theorem window_invariant (f : ℕ) (fs : List ℕ) :
    ((f :: fs).foldl ensureWindowContainsFrame ⟨0, 0⟩).size ≤ 600 ∧
      (∀ a : ℤ,
        (∃ i : ℤ, seekResolve ((f :: fs).foldl ensureWindowContainsFrame ⟨0, 0⟩) i = a) ↔
          ((((f :: fs).foldl ensureWindowContainsFrame ⟨0, 0⟩).start : ℤ) ≤ a ∧
            a < (((f :: fs).foldl ensureWindowContainsFrame ⟨0, 0⟩).start : ℤ) +
              (((f :: fs).foldl ensureWindowContainsFrame ⟨0, 0⟩).size : ℤ))) := by
  have hbase : 1 ≤ (ensureWindowContainsFrame ⟨0, 0⟩ f).size ∧
      (ensureWindowContainsFrame ⟨0, 0⟩ f).size ≤ maxWindowFrames :=
    ensure_inv ⟨0, 0⟩ f (Or.inr rfl)
  have hinv := ensure_fold_inv fs (ensureWindowContainsFrame ⟨0, 0⟩ f) hbase
  rw [List.foldl_cons]
  exact ⟨hinv.2, fun a => seek_image _ hinv.1 a⟩

theorem window_invariant_witness :
    ((5 :: [6, 7]).foldl ensureWindowContainsFrame ⟨0, 0⟩).size ≤ 600 ∧
      (∃ i : ℤ, seekResolve ((5 :: [6, 7]).foldl ensureWindowContainsFrame ⟨0, 0⟩) i = 6) :=
  ⟨(window_invariant 5 [6, 7]).1,
    ((window_invariant 5 [6, 7]).2 6).mpr (by decide)⟩

/-- C5: from any engine state where rendering is possible (nonzero
surface, the window invariant holding, and the displayed buffer being
the render of the current frame), stepForward followed by stepBackward
restores the absolute frame index, and the re-rendered buffer is
byte-identical to the one displayed before. -/
theorem step_forward_backward (o : MathOracle) (cfg : Settings) (seed w h : ℕ)
    (st : EngineState) (hw : 0 < w) (hh : 0 < h) (h1 : 1 ≤ st.win.size)
    (h2 : st.win.size ≤ maxWindowFrames) (h3 : st.win.start ≤ st.frame)
    (hdisp : st.displayed = renderBytes o cfg seed st.frame w h) :
    (stepBackwardE o cfg seed w h (stepForwardE o cfg seed w h st)).frame = st.frame ∧
      (stepBackwardE o cfg seed w h (stepForwardE o cfg seed w h st)).displayed =
        st.displayed := by
  have hcond : ¬(w = 0 ∨ h = 0) := by omega
  have hstart := ensure_start_le st.win st.frame h1 h2 h3
  simp only [stepForwardE, stepBackwardE, renderFrame, stepBackResolve, if_neg hcond]
  have hmax : max (ensureWindowContainsFrame st.win (st.frame + 1)).start
      (st.frame + 1 - 1) = st.frame := by omega
  rw [hmax]
  simp [hdisp]

theorem step_forward_backward_witness :
    (stepBackwardE zeroOracle
        (Settings.mk 1 30 ColorMode.monochrome Pattern.pixels Distortion.none 0 0 {}) 1 1 1
        (stepForwardE zeroOracle
          (Settings.mk 1 30 ColorMode.monochrome Pattern.pixels Distortion.none 0 0 {}) 1 1 1
          ⟨0, ⟨0, 1⟩,
            renderBytes zeroOracle
              (Settings.mk 1 30 ColorMode.monochrome Pattern.pixels Distortion.none 0 0 {})
              1 0 1 1⟩)).frame = 0 ∧
      (stepBackwardE zeroOracle
          (Settings.mk 1 30 ColorMode.monochrome Pattern.pixels Distortion.none 0 0 {}) 1 1 1
          (stepForwardE zeroOracle
            (Settings.mk 1 30 ColorMode.monochrome Pattern.pixels Distortion.none 0 0 {}) 1 1 1
            ⟨0, ⟨0, 1⟩,
              renderBytes zeroOracle
                (Settings.mk 1 30 ColorMode.monochrome Pattern.pixels Distortion.none 0 0 {})
                1 0 1 1⟩)).displayed =
        renderBytes zeroOracle
          (Settings.mk 1 30 ColorMode.monochrome Pattern.pixels Distortion.none 0 0 {})
          1 0 1 1 :=
  step_forward_backward zeroOracle
    (Settings.mk 1 30 ColorMode.monochrome Pattern.pixels Distortion.none 0 0 {}) 1 1 1
    ⟨0, ⟨0, 1⟩,
      renderBytes zeroOracle
        (Settings.mk 1 30 ColorMode.monochrome Pattern.pixels Distortion.none 0 0 {}) 1 0 1 1⟩
    (by decide) (by decide) (by decide) (by decide) (by decide) rfl

/-- C8: for the vortex and fisheye resampling distortions, every output
pixel whose computed inverse-mapped source coordinate falls outside the
buffer bounds keeps exactly its pre-distortion pixel word (so in
particular its RGB value): there is no wrapping and no clamped
sampling. -/
theorem resample_out_of_bounds (o : MathOracle) (i s : ℚ) (w h x y : ℕ) (buf : Array ℕ)
    (rng : ℕ) (hx : x < w) (hy : y < h) (hsz : buf.size = w * h) :
    (inBoundsQ w h (vortexSrc o w h i s x y).1 (vortexSrc o w h i s x y).2 = false →
      ((applyDistortion o Distortion.vortex i s w h buf rng).1).getD (y * w + x) 0 =
        buf.getD (y * w + x) 0) ∧
    (inBoundsQ w h (fisheyeSrc o w h i x y).1 (fisheyeSrc o w h i x y).2 = false →
      ((applyDistortion o Distortion.fisheye i s w h buf rng).1).getD (y * w + x) 0 =
        buf.getD (y * w + x) 0) := by
  have hidx : y * w + x < buf.size := by
    rw [hsz]
    have h1 : (y + 1) * w = y * w + w := by ring
    have h2 : (y + 1) * w ≤ h * w := Nat.mul_le_mul_right w (by omega)
    have h3 : h * w = w * h := Nat.mul_comm h w
    omega
  constructor
  · intro hob
    show (distortVortex o w h i s buf).getD (y * w + x) 0 = _
    unfold distortVortex
    rw [resampleLoop_getD w h _ _ buf x y hx hy hidx]
    simp [hob]
  · intro hob
    show (distortFisheye o w h i buf).getD (y * w + x) 0 = _
    unfold distortFisheye
    rw [resampleLoop_getD w h _ _ buf x y hx hy hidx]
    simp [hob]

theorem resample_out_of_bounds_witness :
    ((applyDistortion ⟨fun _ => 0, fun _ => 100, fun _ _ => 0, fun _ => 1, 0⟩
          Distortion.vortex 5 1 2 2 #[10, 11, 12, 13] 0).1).getD 0 0 = 10 ∧
      ((applyDistortion ⟨fun _ => 0, fun _ => 100, fun _ _ => 0, fun _ => 1, 0⟩
          Distortion.fisheye 5 1 2 2 #[10, 11, 12, 13] 0).1).getD 0 0 = 10 :=
  ⟨(resample_out_of_bounds ⟨fun _ => 0, fun _ => 100, fun _ _ => 0, fun _ => 1, 0⟩
      5 1 2 2 0 0 #[10, 11, 12, 13] 0 (by decide) (by decide) (by decide)).1
      (by simp only [inBoundsQ, vortexSrc]; norm_num),
    (resample_out_of_bounds ⟨fun _ => 0, fun _ => 100, fun _ _ => 0, fun _ => 1, 0⟩
      5 1 2 2 0 0 #[10, 11, 12, 13] 0 (by decide) (by decide) (by decide)).2
      (by simp only [inBoundsQ, fisheyeSrc]; norm_num)⟩

/-- C2: with speed 10 (fixedDt = 1000/10 ms), a single playing tick with
elapsed frameTime 650 ms starting from accumulator 0 advances the
absolute frame counter by exactly 5 (the per-tick step cap), leaves the
accumulator at exactly 50 ms, and increments droppedFrameCount by
exactly 1, for every frame counter, window, buffer, fps-anchor and
wall-clock value. -/
theorem drop_accounting (o : MathOracle) (cfg : Settings) (seed w h : ℕ) (frame : ℕ)
    (win : Window) (displayed : Array ℕ) (dropped : ℕ) (lft : ℚ) (lfc : ℕ) (afps : ℤ)
    (now : ℚ) :
    (animate o cfg seed w h false (1000 / 10) 650 now
        ⟨frame, win, displayed, 0, dropped, lft, lfc, afps⟩).frame = frame + 5 ∧
      (animate o cfg seed w h false (1000 / 10) 650 now
        ⟨frame, win, displayed, 0, dropped, lft, lfc, afps⟩).acc = 50 ∧
      (animate o cfg seed w h false (1000 / 10) 650 now
        ⟨frame, win, displayed, 0, dropped, lft, lfc, afps⟩).dropped = dropped + 1 := by
  simp only [animate, animateSteps, Bool.false_eq_true, if_false]
  norm_num [jsModQ, jsTruncQ]
  split_ifs <;> simp_all
